import Mathlib

/-!
Verification of the core board/piece simulation of a two-player Tetris
program (`src/main.py`): piece rotation, move validation, piece locking with
line clearing and scoring, the AI move search, the session tick, and the
winner determination.  Grids are lists of rows of RGB colour triples, with
`BLACK` denoting an empty cell, exactly as in the source.
-/

namespace Tetris

/-- Colours are RGB triples, as in the source. -/
abbrev Color := ℕ × ℕ × ℕ

/-- `BLACK = (20, 20, 20)` marks an empty cell. -/
def BLACK : Color := (20, 20, 20)

def GRID_COLUMNS : ℕ := 10

def GRID_ROWS : ℕ := 20

abbrev Row := List Color

abbrev Grid := List Row

/-- A falling piece: shape matrix (0 = empty, nonzero = occupied cell),
colour, and integer board coordinates of the matrix's top-left cell.
Coordinates are integers because `x + dx` and spawn-time `y` can leave ℕ. -/
structure Tetromino where
  shape : List (List ℕ)
  color : Color
  x : ℤ
  y : ℤ
deriving DecidableEq, Repr

/-- The fixed shape table `SHAPES` from the source. -/
def SHAPES : List (List (List ℕ)) :=
  [[[1, 1, 1, 1]],
   [[1, 1], [1, 1]],
   [[1, 1, 1], [0, 1, 0]],
   [[1, 1, 1], [1, 0, 0]],
   [[1, 1, 1], [0, 0, 1]],
   [[1, 1, 0], [0, 1, 1]],
   [[0, 1, 1], [1, 1, 0]]]

/-- Minimum row length of a matrix; Python's `zip(*rows)` truncates to the
shortest row (and yields nothing for zero rows). -/
def minRowLen : List (List ℕ) → ℕ
  | [] => 0
  | r :: rs => rs.foldl (fun m s => min m s.length) r.length

/-- `zip(*rows)`: column `i` of the matrix, for `i` below every row length. -/
def pyZip (rows : List (List ℕ)) : List (List ℕ) :=
  (List.range (minRowLen rows)).map (fun i => rows.map (fun r => r.getD i 0))

/-- `Tetromino.rotate` body: `list(zip(*self.shape[::-1]))`. -/
def rotateShape (shape : List (List ℕ)) : List (List ℕ) :=
  pyZip shape.reverse

/-- `rotate()` replaces the shape in place; position and colour are untouched. -/
def Tetromino.rotate (t : Tetromino) : Tetromino :=
  { t with shape := rotateShape t.shape }

section RotateLemmas

lemma foldl_min_const {c : ℕ} :
    ∀ (rs : List (List ℕ)), (∀ r ∈ rs, r.length = c) →
      rs.foldl (fun m s => min m s.length) c = c := by
  intro rs
  induction rs with
  | nil => intro _; rfl
  | cons s rs ih =>
    intro h
    have hs : s.length = c := h s (List.mem_cons_self s rs)
    simp only [List.foldl_cons, hs, min_self]
    exact ih (fun r hr => h r (List.mem_cons_of_mem s hr))

lemma minRowLen_eq {c : ℕ} (rows : List (List ℕ)) (hne : rows ≠ [])
    (h : ∀ r ∈ rows, r.length = c) : minRowLen rows = c := by
  cases rows with
  | nil => exact absurd rfl hne
  | cons r rs =>
    have hr : r.length = c := h r (List.mem_cons_self r rs)
    simp only [minRowLen, hr]
    exact foldl_min_const rs (fun s hs => h s (List.mem_cons_of_mem r hs))

end RotateLemmas

/-- C6: `rotate()` transposes the shape and reverses the row order, i.e. the
new cell at row `i`, column `j` is the old cell at row `r - 1 - j`, column
`i`; the result has `c` rows of length `r`, and the piece's position is
unchanged. -/
theorem rotate_is_clockwise (t : Tetromino) (r c : ℕ)
    (hr : t.shape.length = r) (hc : ∀ row ∈ t.shape, row.length = c)
    (hrpos : 0 < r) :
    t.rotate.shape.length = c ∧
    (∀ row ∈ t.rotate.shape, row.length = r) ∧
    (∀ i j : ℕ, i < c → j < r →
      (t.rotate.shape.getD i []).getD j 0 =
        (t.shape.getD (r - 1 - j) []).getD i 0) ∧
    t.rotate.x = t.x ∧ t.rotate.y = t.y := by
  subst hr
  have hne : t.shape.reverse ≠ [] := by
    intro hnil
    have h0 : t.shape.length = 0 := by
      have h1 := congrArg List.length hnil
      simp only [List.length_reverse, List.length_nil] at h1
      exact h1
    omega
  have hrev : ∀ row ∈ t.shape.reverse, row.length = c := by
    intro row hrow
    exact hc row (List.mem_reverse.mp hrow)
  have hmin : minRowLen t.shape.reverse = c := minRowLen_eq t.shape.reverse hne hrev
  have hlenrev : t.shape.reverse.length = t.shape.length := by simp
  refine ⟨?_, ?_, ?_, rfl, rfl⟩
  · show (pyZip t.shape.reverse).length = c
    simp [pyZip, hmin]
  · intro row hrow
    simp only [Tetromino.rotate, rotateShape, pyZip, List.mem_map] at hrow
    obtain ⟨i, _, hrow⟩ := hrow
    rw [← hrow]
    simp
  · intro i j hi hj
    have hlen : (pyZip t.shape.reverse).length = c := by simp [pyZip, hmin]
    have hi' : i < (pyZip t.shape.reverse).length := by omega
    have hrowi : (pyZip t.shape.reverse).getD i [] = (pyZip t.shape.reverse)[i] :=
      List.getD_eq_getElem _ _ hi'
    show ((pyZip t.shape.reverse).getD i []).getD j 0 = _
    rw [hrowi]
    have hzip : (pyZip t.shape.reverse)[i] =
        t.shape.reverse.map (fun row => row.getD i 0) := by
      simp [pyZip, hmin]
    rw [hzip]
    have hj' : j < (t.shape.reverse.map (fun row => row.getD i 0)).length := by
      rw [List.length_map, hlenrev]; exact hj
    rw [List.getD_eq_getElem _ _ hj']
    rw [List.getElem_map]
    have hidx : t.shape.reverse[j] = t.shape[t.shape.length - 1 - j] :=
      List.getElem_reverse _
    rw [hidx]
    have hlt : t.shape.length - 1 - j < t.shape.length := by omega
    rw [List.getD_eq_getElem t.shape [] hlt]

/-- C7: applying `rotate()` four times to each of the 7 fixed shapes gives
back the original shape matrix, cell for cell. -/
theorem shapes_rotate_four_id :
    SHAPES.map (fun s => rotateShape (rotateShape (rotateShape (rotateShape s)))) =
      SHAPES := by decide

/-- Witness for C6 at the I-piece shape. -/
theorem rotate_is_clockwise_witness :
    (Tetromino.mk [[1, 1, 1, 1]] (0, 255, 255) 3 0).rotate.shape.length = 4 ∧
    (Tetromino.mk [[1, 1, 1, 1]] (0, 255, 255) 3 0).rotate.x = 3 := by
  have h := rotate_is_clockwise (Tetromino.mk [[1, 1, 1, 1]] (0, 255, 255) 3 0)
    1 4 rfl (by decide) (by decide)
  exact ⟨h.1, by rw [h.2.2.2.1]⟩

/-- `TetrisGame.is_valid_move`: each occupied cell of the piece, shifted by
`(dx, dy)`, is bounds-checked against the column range and the bottom row,
and — when its shifted row is on the board (`new_y ≥ 0`) — checked for
collision with an occupied grid cell.  The loops run over the shape's row
and column indices, mirroring the source's `enumerate` loops; `len(grid[0])`
is the head row's length. -/
def is_valid_move (piece : Tetromino) (dx dy : ℤ) (grid : Grid) : Bool :=
  (List.range piece.shape.length).all (fun y =>
    (List.range (piece.shape.getD y []).length).all (fun x =>
      if (piece.shape.getD y []).getD x 0 ≠ 0 then
        let new_x := piece.x + x + dx
        let new_y := piece.y + y + dy
        if new_x < 0 ∨ (grid.headI.length : ℤ) ≤ new_x ∨ (grid.length : ℤ) ≤ new_y then
          false
        else if 0 ≤ new_y ∧ (grid.getD new_y.toNat []).getD new_x.toNat BLACK ≠ BLACK then
          false
        else true
      else true))

/-- C2: on a `GRID_ROWS × GRID_COLUMNS` grid, `is_valid_move` accepts exactly
when every occupied cell of the shifted piece has its x in `[0, GRID_COLUMNS)`,
its y below `GRID_ROWS`, and, whenever the shifted y is on the board, the
target grid cell is empty; cells with shifted y < 0 are exempt from the
occupancy check but still bounds-checked on x. -/
theorem is_valid_move_iff (piece : Tetromino) (dx dy : ℤ) (grid : Grid)
    (hrows : grid.length = GRID_ROWS)
    (hcols : ∀ row ∈ grid, row.length = GRID_COLUMNS) :
    is_valid_move piece dx dy grid = true ↔
      ∀ i j : ℕ, (piece.shape.getD i []).getD j 0 ≠ 0 →
        0 ≤ piece.x + j + dx ∧ piece.x + j + dx < (GRID_COLUMNS : ℤ) ∧
        piece.y + i + dy < (GRID_ROWS : ℤ) ∧
        (0 ≤ piece.y + i + dy →
          (grid.getD (piece.y + i + dy).toNat []).getD
            (piece.x + j + dx).toNat BLACK = BLACK) := by
  have hg0 : grid.headI.length = GRID_COLUMNS := by
    cases grid with
    | nil => simp [GRID_ROWS] at hrows
    | cons r rs => exact hcols r (List.mem_cons_self r rs)
  simp only [is_valid_move, List.all_eq_true, List.mem_range]
  constructor
  · intro h i j hocc
    have hi : i < piece.shape.length := by
      by_contra hni
      rw [List.getD_eq_default piece.shape [] (by omega)] at hocc
      simp at hocc
    have hj : j < (piece.shape.getD i []).length := by
      by_contra hnj
      rw [List.getD_eq_default _ 0 (by omega)] at hocc
      simp at hocc
    have hcell := h i hi j hj
    rw [if_pos hocc] at hcell
    by_cases hA : piece.x + j + dx < 0 ∨ (grid.headI.length : ℤ) ≤ piece.x + j + dx ∨
        (grid.length : ℤ) ≤ piece.y + i + dy
    · rw [if_pos hA] at hcell
      exact absurd hcell (by simp)
    · rw [if_neg hA] at hcell
      rw [hg0, hrows] at hA
      push_neg at hA
      by_cases hB : 0 ≤ piece.y + i + dy ∧
          (grid.getD (piece.y + i + dy).toNat []).getD (piece.x + j + dx).toNat BLACK ≠ BLACK
      · rw [if_pos hB] at hcell
        exact absurd hcell (by simp)
      · refine ⟨hA.1, hA.2.1, hA.2.2, ?_⟩
        intro hy
        by_contra hne
        exact hB ⟨hy, hne⟩
  · intro h i hi j hj
    by_cases hocc : (piece.shape.getD i []).getD j 0 = 0
    · rw [if_neg (fun hne => hne hocc)]
    · rw [if_pos hocc]
      obtain ⟨h1, h2, h3, h4⟩ := h i j hocc
      rw [if_neg (by rw [hg0, hrows]; push_neg; exact ⟨h1, h2, h3⟩)]
      rw [if_neg (by intro hB; exact hB.2 (h4 hB.1))]

/-- The all-empty `GRID_ROWS × GRID_COLUMNS` grid, used by concrete witnesses. -/
def emptyGrid : Grid := List.replicate GRID_ROWS (List.replicate GRID_COLUMNS BLACK)

/-- Witness for C2: the horizontal I-piece at (3, 0) on the empty grid. -/
theorem is_valid_move_iff_witness :
    (emptyGrid.getD 0 []).getD 3 BLACK = BLACK := by
  have h := (is_valid_move_iff (Tetromino.mk [[1, 1, 1, 1]] (0, 255, 255) 3 0)
    0 0 emptyGrid (by decide) (by decide)).mp (by decide) 0 0 (by decide)
  exact h.2.2.2 (by decide)

/-- Writing a piece into a grid — the shared loop body of
`TetrisGame.lock_piece` and of the hypothetical placement in
`AIPlayer.make_move`: every occupied cell whose resulting row lies within
`[0, len(grid))` overwrites that cell with the piece's colour.  The column
index is used unguarded as in the source; placements reached through
`is_valid_move` always have the column inside the row. -/
def placePiece (grid : Grid) (p : Tetromino) : Grid :=
  (List.range p.shape.length).foldl (fun g y =>
    (List.range (p.shape.getD y []).length).foldl (fun g2 x =>
      if (p.shape.getD y []).getD x 0 ≠ 0 then
        if 0 ≤ p.y + y ∧ p.y + y < (g2.length : ℤ) then
          g2.set (p.y + y).toNat
            ((g2.getD (p.y + y).toNat []).set (p.x + x).toNat p.color)
        else g2
      else g2) g) grid

/-- A row is full when none of its cells is `BLACK`. -/
def isFullRow (row : Row) : Bool := row.all (fun cell => cell ≠ BLACK)

/-- The line-clear loop of `TetrisGame.lock_piece`: iterate over a snapshot
of the grid (`player.grid[:]`) together with its enumeration index, deleting
from the live grid at the snapshot index and inserting a fresh empty row at
index 0 for each full snapshot row; counts the cleared rows. -/
def clearLoop : Grid → List Row → ℕ → ℕ → Grid × ℕ
  | g, [], _, n => (g, n)
  | g, row :: rest, i, n =>
    if isFullRow row then
      clearLoop ((g.eraseIdx i).insertIdx 0 (List.replicate row.length BLACK))
        rest (i + 1) (n + 1)
    else
      clearLoop g rest (i + 1) n

/-- The line-clear phase of `lock_piece`, started on the post-placement grid. -/
def clearLines (grid : Grid) : Grid × ℕ := clearLoop grid grid 0 0

/-- Per-side state (`TetrisPlayer`): grid, current piece, game-over flag,
score, and survival time (a float of seconds in the source; modelled here in
whole milliseconds). -/
structure PlayerState where
  grid : Grid
  current_piece : Tetromino
  game_over : Bool
  score : ℕ
  survival_time : ℕ
deriving DecidableEq, Repr

/-- The line-clear scoring table `[40, 100, 300, 1200]`. -/
def scoreTable : List ℕ := [40, 100, 300, 1200]

/-- `TetrisGame.lock_piece`: write the current piece into the grid, run the
line-clear scan, and when lines were cleared add the scoring-table entry for
the cleared count (1-based).  The source indexes the table directly — an
index above 4 would raise — so the `getD` default is unreachable for the at
most 4 rows one piece can complete. -/
def lock_piece (p : PlayerState) : PlayerState :=
  { p with
    grid := (clearLines (placePiece p.grid p.current_piece)).1,
    score :=
      if 0 < (clearLines (placePiece p.grid p.current_piece)).2 then
        p.score + scoreTable.getD ((clearLines (placePiece p.grid p.current_piece)).2 - 1) 0
      else p.score }

/-- Number of lines cleared by a lock operation on state `p`. -/
def linesClearedAtLock (p : PlayerState) : ℕ :=
  (clearLines (placePiece p.grid p.current_piece)).2

section ClearLemmas

lemma eraseIdx_append_cons (pre : Grid) (row : Row) (rest : Grid) :
    (pre ++ row :: rest).eraseIdx pre.length = pre ++ rest := by
  rw [List.eraseIdx_append_of_length_le (le_refl pre.length)]
  simp

lemma clearLoop_spec (n : ℕ) :
    ∀ (rest : List Row) (pre : Grid) (cnt : ℕ),
      (∀ row ∈ rest, row.length = n) →
      clearLoop (pre ++ rest) rest pre.length cnt =
        (List.replicate (rest.countP isFullRow) (List.replicate n BLACK) ++ pre ++
           rest.filter (fun row => !isFullRow row),
         cnt + rest.countP isFullRow) := by
  intro rest
  induction rest with
  | nil =>
    intro pre cnt _
    simp [clearLoop]
  | cons row rest ih =>
    intro pre cnt hn
    have hrow : row.length = n := hn row (List.mem_cons_self row rest)
    have hrest : ∀ r ∈ rest, r.length = n :=
      fun r hr => hn r (List.mem_cons_of_mem row hr)
    by_cases hfull : isFullRow row
    · simp only [clearLoop, hfull, if_true]
      rw [eraseIdx_append_cons, List.insertIdx_zero, hrow]
      have hcons : List.replicate n BLACK :: (pre ++ rest) =
          (List.replicate n BLACK :: pre) ++ rest := rfl
      have hlen : pre.length + 1 = (List.replicate n BLACK :: pre).length := by simp
      rw [hcons, hlen, ih (List.replicate n BLACK :: pre) (cnt + 1) hrest]
      rw [Prod.mk.injEq]
      constructor
      · rw [List.countP_cons, if_pos hfull, List.filter_cons, List.replicate_succ']
        simp [hfull, List.append_assoc]
      · rw [List.countP_cons, if_pos hfull]
        omega
    · simp only [clearLoop, hfull, if_false]
      have hsplit : pre ++ row :: rest = (pre ++ [row]) ++ rest := by simp
      have hlen : pre.length + 1 = (pre ++ [row]).length := by simp
      rw [hsplit, hlen, ih (pre ++ [row]) cnt hrest]
      rw [Prod.mk.injEq]
      constructor
      · rw [List.countP_cons, if_neg (by simp [hfull]), List.filter_cons]
        simp [hfull, List.append_assoc]
      · rw [List.countP_cons, if_neg (by simp [hfull])]
        simp [hfull]

end ClearLemmas

/-- C1: the line-clear phase removes exactly the rows that were full in the
grid as the scan began, once each; one empty row is inserted at index 0 per
cleared row; the previously-non-full rows keep their relative order; and the
returned count is the number of full rows. -/
theorem clearLines_removes_full_rows (grid : Grid) (n : ℕ)
    (hn : ∀ row ∈ grid, row.length = n) :
    clearLines grid =
      (List.replicate (grid.countP isFullRow) (List.replicate n BLACK) ++
         grid.filter (fun row => !isFullRow row),
       grid.countP isFullRow) := by
  have h := clearLoop_spec n grid [] 0 hn
  simpa [clearLines] using h

/-- Witness for C1 on a 3 × 2 grid whose middle row is full. -/
theorem clearLines_removes_full_rows_witness :
    clearLines [[BLACK, (1, 1, 1)], [(1, 1, 1), (1, 1, 1)], [(1, 1, 1), BLACK]] =
      ([[BLACK, BLACK], [BLACK, (1, 1, 1)], [(1, 1, 1), BLACK]], 1) :=
  (clearLines_removes_full_rows
    [[BLACK, (1, 1, 1)], [(1, 1, 1), (1, 1, 1)], [(1, 1, 1), BLACK]] 2
    (by decide)).trans (by decide)

/-- C5: the score delta of a lock operation is 0, 40, 100, 300, 1200 for
0, 1, 2, 3, 4 cleared lines respectively. -/
theorem lock_piece_score_delta (p : PlayerState) :
    (linesClearedAtLock p = 0 → (lock_piece p).score = p.score) ∧
    (linesClearedAtLock p = 1 → (lock_piece p).score = p.score + 40) ∧
    (linesClearedAtLock p = 2 → (lock_piece p).score = p.score + 100) ∧
    (linesClearedAtLock p = 3 → (lock_piece p).score = p.score + 300) ∧
    (linesClearedAtLock p = 4 → (lock_piece p).score = p.score + 1200) := by
  refine ⟨fun hk => ?_, fun hk => ?_, fun hk => ?_, fun hk => ?_, fun hk => ?_⟩ <;>
    unfold linesClearedAtLock at hk <;>
    simp [lock_piece, hk, scoreTable]

/-- A one-row board in which locking the 1 × 1 piece at (1, 0) completes the
single row. -/
def lockWitnessState : PlayerState :=
  { grid := [[(1, 1, 1), BLACK]],
    current_piece := { shape := [[1]], color := (2, 2, 2), x := 1, y := 0 },
    game_over := false,
    score := 7,
    survival_time := 0 }

/-- Witness for C5: locking on `lockWitnessState` clears one line for +40. -/
theorem lock_piece_score_delta_witness :
    linesClearedAtLock lockWitnessState = 1 ∧
    (lock_piece lockWitnessState).score = lockWitnessState.score + 40 :=
  ⟨by decide, (lock_piece_score_delta lockWitnessState).2.1 (by decide)⟩

/-- `AIPlayer.calculate_board_height`: grid height above the topmost row
containing an occupied cell, 0 for an empty grid. -/
def calculate_board_height (grid : Grid) : ℕ :=
  match grid.findIdx? (fun row => row.any (fun cell => cell ≠ BLACK)) with
  | some y => grid.length - y
  | none => 0

/-- `AIPlayer.calculate_holes`: per column, count the empty cells lying
below the first occupied cell; the scan carries a `found_block` flag and the
running total, as in the source. -/
def calculate_holes (grid : Grid) : ℕ :=
  (List.range grid.headI.length).foldl (fun holes x =>
    (grid.foldl (fun st row =>
      if row.getD x BLACK ≠ BLACK then (true, st.2)
      else if st.1 then (st.1, st.2 + 1)
      else st) ((false : Bool), holes)).2) 0

/-- `AIPlayer.get_column_height`: grid height above the topmost occupied
cell of the column, 0 for an empty column. -/
def get_column_height (grid : Grid) (column : ℕ) : ℕ :=
  match grid.findIdx? (fun row => row.getD column BLACK ≠ BLACK) with
  | some y => grid.length - y
  | none => 0

/-- `AIPlayer.calculate_bumpiness`: sum of absolute differences between
adjacent column heights. -/
def calculate_bumpiness (grid : Grid) : ℕ :=
  let column_heights := (List.range grid.headI.length).map (fun x => get_column_height grid x)
  (List.range (column_heights.length - 1)).foldl
    (fun s i =>
      s + ((column_heights.getD i 0 : ℤ) - (column_heights.getD (i + 1) 0 : ℤ)).natAbs) 0

/-- The heuristic of `make_move`: `score = height * 2 + holes * 3 + bumpiness`
(lower is better). -/
def boardScore (grid : Grid) : ℕ :=
  calculate_board_height grid * 2 + calculate_holes grid * 3 + calculate_bumpiness grid

/-- The hard-drop loop of `make_move` with explicit fuel: increment `y`
while moving down one more row is valid. -/
def simDropFuel : ℕ → Grid → Tetromino → Tetromino
  | 0, _, p => p
  | fuel + 1, grid, p =>
    if is_valid_move p 0 1 grid then simDropFuel fuel grid { p with y := p.y + 1 } else p

/-- The source's `while game.is_valid_move(temp_piece, 0, 1, grid_copy)`
loop.  For a piece with at least one occupied cell, validity of the downward
move forces `y < len(grid)`, so `len(grid) + 1 - y` steps of fuel always
reach the loop's own halting condition; only for a shape with no occupied
cell (on which the source loop would never halt) does the fuel run out. -/
def simDrop (grid : Grid) (p : Tetromino) : Tetromino :=
  simDropFuel ((grid.length + 1 - p.y).toNat) grid p

/-- The `best_move` record tracked by `AIPlayer.make_move`: the best score
seen (`none` models the initial `float('inf')`), its rotation count, and its
target x. -/
structure BestMove where
  score : Option ℕ
  rotation : ℕ
  x : ℤ
deriving DecidableEq, Repr

/-- `rotate()` applied `n` times to a shape matrix. -/
def rotateN : ℕ → List (List ℕ) → List (List ℕ)
  | 0, s => s
  | k + 1, s => rotateN k (rotateShape s)

/-- The horizontal offsets `range(-5, 6)` tried by the search. -/
def dxList : List ℤ := (List.range 11).map (fun k => (k : ℤ) - 5)

/-- One iteration of the inner `dx` loop of `make_move`: position the
rotated test piece at the offset column, simulate the hard drop against a
copy of the grid, and — when the resting position is valid — score the
hypothetical post-lock grid, keeping the candidate only on strict
improvement over the best score so far. -/
def stepCandidate (grid : Grid) (piece : Tetromino) (shape : List (List ℕ)) (r : ℕ)
    (best : BestMove) (dx : ℤ) : BestMove :=
  let temp := simDrop grid
    { shape := shape, color := piece.color, x := piece.x + dx, y := piece.y }
  if is_valid_move temp 0 0 grid then
    let score := boardScore (placePiece grid temp)
    match best.score with
    | none => { score := some score, rotation := r, x := temp.x }
    | some b =>
      if score < b then { score := some score, rotation := r, x := temp.x } else best
  else best

/-- The candidate scan of `AIPlayer.make_move`: rotation counts 0–3 outer,
offsets −5…5 inner, starting from rotation 0, the piece's current x and an
infinite best score. -/
def best_move (grid : Grid) (piece : Tetromino) : BestMove :=
  (List.range 4).foldl (fun best r =>
    dxList.foldl (stepCandidate grid piece (rotateN r piece.shape) r) best)
    { score := none, rotation := 0, x := piece.x }

/-- The final phase of `make_move`: rotate the live piece the winning number
of times and set its x to the winning value. -/
def applyMove (piece : Tetromino) (m : BestMove) : Tetromino :=
  { piece with shape := rotateN m.rotation piece.shape, x := m.x }

/-- `AIPlayer.make_move`, restricted to its effect on the current piece. -/
def make_move (grid : Grid) (piece : Tetromino) : Tetromino :=
  applyMove piece (best_move grid piece)

/-- `make_move` as a transformer of the AI side's player state. -/
def ai_make_move (p : PlayerState) : PlayerState :=
  { p with current_piece := make_move p.grid p.current_piece }

/-- An accepted search candidate: rotation count, final x, heuristic score. -/
structure Cand where
  rotation : ℕ
  x : ℤ
  score : ℕ
deriving DecidableEq, Repr

/-- Evaluation of one (rotation, dx) combination: `none` when the rested
candidate is rejected, otherwise its rotation, final x and score. -/
def evalCandidate (grid : Grid) (piece : Tetromino) (r : ℕ) (dx : ℤ) : Option Cand :=
  let temp := simDrop grid
    { shape := rotateN r piece.shape, color := piece.color, x := piece.x + dx, y := piece.y }
  if is_valid_move temp 0 0 grid then
    some { rotation := r, x := temp.x, score := boardScore (placePiece grid temp) }
  else none

/-- All accepted candidates in search order: rotation ascending, then dx
ascending. -/
def candidates (grid : Grid) (piece : Tetromino) : List Cand :=
  (List.range 4).flatMap (fun r => dxList.filterMap (fun dx => evalCandidate grid piece r dx))

/-- Minimum score over a candidate list (specification side). -/
def minScore : List Cand → Option ℕ
  | [] => none
  | c :: rest =>
    match minScore rest with
    | none => some c.score
    | some m => some (min c.score m)

/-- Specification-side best move: the first candidate, in search order, that
achieves the minimum score; with no accepted candidate, rotation 0 and the
piece's current x. -/
def specBest (grid : Grid) (piece : Tetromino) : BestMove :=
  match minScore (candidates grid piece) with
  | none => { score := none, rotation := 0, x := piece.x }
  | some m =>
    match (candidates grid piece).find? (fun c => c.score = m) with
    | some c => { score := some m, rotation := c.rotation, x := c.x }
    | none => { score := none, rotation := 0, x := piece.x }

/-- The strict-improvement step on accepted candidates. -/
def chooseStep (best : BestMove) (c : Cand) : BestMove :=
  match best.score with
  | none => { score := some c.score, rotation := c.rotation, x := c.x }
  | some b =>
    if c.score < b then { score := some c.score, rotation := c.rotation, x := c.x } else best

/-- Folding the strict-improvement step over a candidate list. -/
def runBest (init : BestMove) (l : List Cand) : BestMove := l.foldl chooseStep init

section SearchLemmas

lemma stepCandidate_eq (grid : Grid) (piece : Tetromino) (r : ℕ) (best : BestMove) (dx : ℤ) :
    stepCandidate grid piece (rotateN r piece.shape) r best dx =
      match evalCandidate grid piece r dx with
      | none => best
      | some c => chooseStep best c := by
  unfold stepCandidate evalCandidate chooseStep
  cases hb : best.score <;>
    by_cases h : is_valid_move (simDrop grid
      { shape := rotateN r piece.shape, color := piece.color,
        x := piece.x + dx, y := piece.y }) 0 0 grid <;>
    simp [h, hb]

lemma foldl_stepCandidate (grid : Grid) (piece : Tetromino) (r : ℕ) :
    ∀ (l : List ℤ) (best : BestMove),
      l.foldl (stepCandidate grid piece (rotateN r piece.shape) r) best =
        runBest best (l.filterMap (fun dx => evalCandidate grid piece r dx)) := by
  intro l
  induction l with
  | nil => intro best; rfl
  | cons dx l ih =>
    intro best
    rw [List.foldl_cons, List.filterMap_cons, stepCandidate_eq]
    cases he : evalCandidate grid piece r dx with
    | none => exact ih best
    | some c =>
      show l.foldl _ (chooseStep best c) =
        runBest best (c :: l.filterMap (fun dx => evalCandidate grid piece r dx))
      rw [ih (chooseStep best c)]
      rfl

lemma best_move_eq_runBest (grid : Grid) (piece : Tetromino) :
    best_move grid piece =
      runBest { score := none, rotation := 0, x := piece.x } (candidates grid piece) := by
  unfold best_move candidates
  have h : ∀ (rs : List ℕ) (b : BestMove),
      rs.foldl (fun best r =>
          dxList.foldl (stepCandidate grid piece (rotateN r piece.shape) r) best) b =
        runBest b (rs.flatMap (fun r =>
          dxList.filterMap (fun dx => evalCandidate grid piece r dx))) := by
    intro rs
    induction rs with
    | nil => intro b; rfl
    | cons r rs ih =>
      intro b
      rw [List.foldl_cons, List.flatMap_cons, foldl_stepCandidate]
      simp only [runBest, List.foldl_append]
      exact ih _
  exact h _ _

lemma minScore_find {l : List Cand} {m : ℕ} (h : minScore l = some m) :
    ∃ c, l.find? (fun c => c.score = m) = some c := by
  induction l with
  | nil => simp [minScore] at h
  | cons c rest ih =>
    by_cases hc : c.score = m
    · exact ⟨c, List.find?_cons_of_pos rest (by simp [hc])⟩
    · unfold minScore at h
      cases hr : minScore rest with
      | none =>
        rw [hr] at h
        simp at h
        exact absurd h hc
      | some m2 =>
        rw [hr] at h
        simp only [Option.some.injEq] at h
        have hm : m2 = m := by omega
        subst hm
        obtain ⟨c2, hc2⟩ := ih hr
        exact ⟨c2, by rw [List.find?_cons_of_neg rest (by simp [hc])]; exact hc2⟩

lemma runBest_some (l : List Cand) :
    ∀ (s : ℕ) (r : ℕ) (x : ℤ),
      runBest { score := some s, rotation := r, x := x } l =
        match minScore l with
        | none => { score := some s, rotation := r, x := x }
        | some m =>
          if m < s then
            match l.find? (fun c => c.score = m) with
            | some c => { score := some m, rotation := c.rotation, x := c.x }
            | none => { score := some s, rotation := r, x := x }
          else { score := some s, rotation := r, x := x } := by
  induction l with
  | nil => intro s r x; rfl
  | cons c rest ih =>
    intro s r x
    have hstep : runBest { score := some s, rotation := r, x := x } (c :: rest) =
        runBest (if c.score < s then
            { score := some c.score, rotation := c.rotation, x := c.x }
          else { score := some s, rotation := r, x := x }) rest := by
      simp only [runBest, List.foldl_cons, chooseStep]
    rw [hstep]
    by_cases hlt : c.score < s
    · rw [if_pos hlt, ih c.score c.rotation c.x]
      cases hr : minScore rest with
      | none =>
        have hm : minScore (c :: rest) = some c.score := by
          unfold minScore; rw [hr]
        rw [hm]
        simp only []
        rw [if_pos hlt, List.find?_cons_of_pos rest (by simp)]
      | some m2 =>
        have hm : minScore (c :: rest) = some (min c.score m2) := by
          unfold minScore; rw [hr]
        rw [hm]
        simp only []
        by_cases h2 : m2 < c.score
        · have hmin : min c.score m2 = m2 := min_eq_right (Nat.le_of_lt h2)
          rw [hmin, if_pos h2, if_pos (by omega),
            List.find?_cons_of_neg rest (by simp; omega)]
          obtain ⟨c2, hc2⟩ := minScore_find hr
          rw [hc2]
        · have hmin : min c.score m2 = c.score := min_eq_left (Nat.le_of_not_lt h2)
          rw [hmin, if_neg h2, if_pos hlt, List.find?_cons_of_pos rest (by simp)]
    · rw [if_neg hlt, ih s r x]
      cases hr : minScore rest with
      | none =>
        have hm : minScore (c :: rest) = some c.score := by
          unfold minScore; rw [hr]
        rw [hm]
        simp only []
        rw [if_neg hlt]
      | some m2 =>
        have hm : minScore (c :: rest) = some (min c.score m2) := by
          unfold minScore; rw [hr]
        rw [hm]
        simp only []
        by_cases h2 : m2 < s
        · have h2c : m2 < c.score := by omega
          have hmin : min c.score m2 = m2 := min_eq_right (Nat.le_of_lt h2c)
          rw [hmin, if_pos h2, if_pos h2,
            List.find?_cons_of_neg rest (by simp; omega)]
        · rcases Nat.le_total c.score m2 with hcm | hcm
          · have hmin : min c.score m2 = c.score := min_eq_left hcm
            rw [hmin, if_neg h2, if_neg (by omega)]
          · have hmin : min c.score m2 = m2 := min_eq_right hcm
            rw [hmin, if_neg h2, if_neg h2]

lemma runBest_none (l : List Cand) (r : ℕ) (x : ℤ) :
    runBest { score := none, rotation := r, x := x } l =
      match minScore l with
      | none => { score := none, rotation := r, x := x }
      | some m =>
        match l.find? (fun c => c.score = m) with
        | some c => { score := some m, rotation := c.rotation, x := c.x }
        | none => { score := none, rotation := r, x := x } := by
  cases l with
  | nil => rfl
  | cons c rest =>
    have hstep : runBest { score := none, rotation := r, x := x } (c :: rest) =
        runBest { score := some c.score, rotation := c.rotation, x := c.x } rest := by
      simp only [runBest, List.foldl_cons, chooseStep]
    rw [hstep, runBest_some rest c.score c.rotation c.x]
    cases hr : minScore rest with
    | none =>
      have hm : minScore (c :: rest) = some c.score := by
        unfold minScore; rw [hr]
      rw [hm]
      simp only []
      rw [List.find?_cons_of_pos rest (by simp)]
    | some m2 =>
      have hm : minScore (c :: rest) = some (min c.score m2) := by
        unfold minScore; rw [hr]
      rw [hm]
      simp only []
      by_cases h2 : m2 < c.score
      · have hmin : min c.score m2 = m2 := min_eq_right (Nat.le_of_lt h2)
        rw [hmin, if_pos h2, List.find?_cons_of_neg rest (by simp; omega)]
        obtain ⟨c2, hc2⟩ := minScore_find hr
        rw [hc2]
      · have hmin : min c.score m2 = c.score := min_eq_left (Nat.le_of_not_lt h2)
        rw [hmin, if_neg h2, List.find?_cons_of_pos rest (by simp)]

end SearchLemmas

/-- C3: the (rotation, x) pair `make_move` applies is the first candidate,
in rotation-ascending-then-dx-ascending order, that minimises the heuristic
score `height * 2 + holes * 3 + bumpiness` over all accepted candidates —
the strict-improvement update makes the first-found candidate win ties. -/
theorem make_move_first_argmin (grid : Grid) (piece : Tetromino) :
    best_move grid piece = specBest grid piece ∧
    make_move grid piece = applyMove piece (specBest grid piece) := by
  have h : best_move grid piece = specBest grid piece := by
    rw [best_move_eq_runBest, runBest_none]
    rfl
  exact ⟨h, by rw [make_move, h]⟩

/-- C4: `make_move` leaves the board and the piece's y (and colour, score,
game-over flag, survival time) unchanged; the current piece changes only by
a number of rotations and a new x. -/
theorem make_move_frame (p : PlayerState) :
    (ai_make_move p).grid = p.grid ∧
    (ai_make_move p).score = p.score ∧
    (ai_make_move p).game_over = p.game_over ∧
    (ai_make_move p).survival_time = p.survival_time ∧
    (ai_make_move p).current_piece.y = p.current_piece.y ∧
    (ai_make_move p).current_piece.color = p.current_piece.color ∧
    ∃ (r : ℕ) (x : ℤ), (ai_make_move p).current_piece =
      { p.current_piece with shape := rotateN r p.current_piece.shape, x := x } :=
  ⟨rfl, rfl, rfl, rfl, rfl, rfl,
    (best_move p.grid p.current_piece).rotation, (best_move p.grid p.current_piece).x, rfl⟩

/-- C8: when no candidate of the 4 × 11 grid of combinations is accepted,
`make_move` leaves the live piece unchanged in shape, x and y. -/
theorem make_move_no_candidate (grid : Grid) (piece : Tetromino)
    (h : candidates grid piece = []) :
    make_move grid piece = piece := by
  unfold make_move
  rw [best_move_eq_runBest, h]
  rfl

/-- Witness for C8: a fully occupied 1 × 1 board rejects all 44 combinations. -/
theorem make_move_no_candidate_witness :
    candidates [[(1, 1, 1)]] (Tetromino.mk [[1]] (2, 2, 2) 0 0) = [] ∧
    make_move [[(1, 1, 1)]] (Tetromino.mk [[1]] (2, 2, 2) 0 0) =
      Tetromino.mk [[1]] (2, 2, 2) 0 0 :=
  ⟨by decide, make_move_no_candidate _ _ (by decide)⟩

/-- A key event for the human side's piece. -/
inductive HumanAction
  | idle
  | left
  | right
  | down
  | rotateKey
deriving DecidableEq, Repr

/-- Per-tick external inputs of the run loop: the human key event, whether
the gravity interval has elapsed, the randomly spawned replacement pieces,
and the elapsed session time (milliseconds) written into both sides'
survival times on a fall tick. -/
structure TickInput where
  action : HumanAction
  fall : Bool
  humanSpawn : Tetromino
  aiSpawn : Tetromino
  now : ℕ
deriving DecidableEq, Repr

/-- `Tetromino.move(dx, dy)`: translate the position, no validity check. -/
def Tetromino.move (t : Tetromino) (dx dy : ℤ) : Tetromino :=
  { t with x := t.x + dx, y := t.y + dy }

/-- The human key handling of the run loop: left/right/down moves are
guarded by `is_valid_move` on the human grid; the rotate key tests a rotated
copy of the piece before rotating the live piece. -/
def humanEvent : HumanAction → PlayerState → PlayerState
  | .idle, p => p
  | .left, p =>
    if is_valid_move p.current_piece (-1) 0 p.grid then
      { p with current_piece := p.current_piece.move (-1) 0 }
    else p
  | .right, p =>
    if is_valid_move p.current_piece 1 0 p.grid then
      { p with current_piece := p.current_piece.move 1 0 }
    else p
  | .down, p =>
    if is_valid_move p.current_piece 0 1 p.grid then
      { p with current_piece := p.current_piece.move 0 1 }
    else p
  | .rotateKey, p =>
    if is_valid_move p.current_piece.rotate 0 0 p.grid then
      { p with current_piece := p.current_piece.rotate }
    else p

/-- The per-side gravity step of the run loop: move down while valid;
otherwise lock the piece, replace it by the spawned piece, and mark the side
game over when the replacement is invalid at its spawn position. -/
def gravityStep (p : PlayerState) (spawn : Tetromino) : PlayerState :=
  if is_valid_move p.current_piece 0 1 p.grid then
    { p with current_piece := p.current_piece.move 0 1 }
  else
    let p1 := { lock_piece p with current_piece := spawn }
    if ¬ is_valid_move spawn 0 0 p1.grid then { p1 with game_over := true } else p1

/-- The two-player session: both sides plus the session-level `game_over`
flag guarding the `while not self.game_over` loop. -/
structure Session where
  human : PlayerState
  ai : PlayerState
  game_over : Bool
deriving DecidableEq, Repr

/-- One iteration of `TetrisGame.run`'s main loop, restricted to the game
mechanics: when the session-over flag is set the loop has exited and the
body no longer runs; otherwise handle the human key event, run the AI
search, apply the gravity step to both sides when the fall interval has
elapsed (writing the same survival time to both), and set the session-over
flag exactly when either side's `game_over` flag is set afterwards.
Rendering, music, pause, restart and quit handling are outside this model. -/
def tick (inp : TickInput) (s : Session) : Session :=
  if s.game_over then s
  else
    let h1 := humanEvent inp.action s.human
    let a1 := ai_make_move s.ai
    let h2 := if inp.fall then
        { gravityStep h1 inp.humanSpawn with survival_time := inp.now } else h1
    let a2 := if inp.fall then
        { gravityStep a1 inp.aiSpawn with survival_time := inp.now } else a1
    { human := h2, ai := a2, game_over := h2.game_over || a2.game_over }

/-- C9: the session-over flag is set in exactly the tick in which a side's
game-over flag becomes set (it equals the old flag or-ed with both sides'
post-tick flags), and a tick on a session whose over flag is already set
changes nothing — no grid, piece or score mutation after the end. -/
theorem tick_over_sync (inp : TickInput) (s : Session) :
    (tick inp s).game_over =
      (s.game_over || ((tick inp s).human.game_over || (tick inp s).ai.game_over)) ∧
    tick inp { s with game_over := true } = { s with game_over := true } := by
  constructor
  · by_cases h : s.game_over
    · simp [tick, h]
    · simp [tick, h]
  · simp [tick]

/-- `TetrisGame.save_scores`: the winner recorded into the game-history
table — the AI exactly when the human side's game-over flag is set. -/
def save_scores_winner (s : Session) : String :=
  if s.human.game_over then "AI" else "Human"

/-- `TetrisGame.show_game_over_screen`: the winner displayed on the
game-over screen — the human exactly when the AI side's flag is set. -/
def show_game_over_winner (s : Session) : String :=
  if s.ai.game_over then "Human Player" else "AI"

/-- A side of the match. -/
inductive Side
  | human
  | ai
deriving DecidableEq, Repr

/-- The side named by a winner string: "AI" names the AI side, "Human" and
"Human Player" name the human side. -/
def sideOfWinner (w : String) : Side :=
  if w = "AI" then Side.ai else Side.human

/-- A terminal session in which both sides topped out in the same tick. -/
def bothOverSession : Session :=
  { human := { lockWitnessState with game_over := true },
    ai := { lockWitnessState with game_over := true },
    game_over := true }

/-- A terminal session in which only the AI side topped out. -/
def aiOverSession : Session :=
  { human := lockWitnessState,
    ai := { lockWitnessState with game_over := true },
    game_over := true }

/-- Counterexample to C10: in a terminal session where both sides' game-over
flags are set, `save_scores` records the AI as winner while the game-over
screen displays the human — the two computations name different sides. -/
theorem winner_disagreement_counterexample :
    sideOfWinner (save_scores_winner bothOverSession) ≠
      sideOfWinner (show_game_over_winner bothOverSession) := by decide

/-- C10 amended: the persisted and the displayed winner agree whenever
exactly one side's game-over flag is set; when both are set they disagree —
the persisted winner is the AI and the displayed winner is the human. -/
theorem winner_agreement (s : Session) :
    (s.human.game_over ≠ s.ai.game_over →
      sideOfWinner (save_scores_winner s) = sideOfWinner (show_game_over_winner s)) ∧
    (s.human.game_over = true → s.ai.game_over = true →
      sideOfWinner (save_scores_winner s) = Side.ai ∧
      sideOfWinner (show_game_over_winner s) = Side.human) := by
  cases hh : s.human.game_over <;> cases ha : s.ai.game_over <;>
    simp [save_scores_winner, show_game_over_winner, sideOfWinner, hh, ha]

/-- Witness for the amended C10 at two concrete terminal sessions. -/
theorem winner_agreement_witness :
    sideOfWinner (save_scores_winner aiOverSession) =
      sideOfWinner (show_game_over_winner aiOverSession) ∧
    sideOfWinner (save_scores_winner bothOverSession) = Side.ai :=
  ⟨(winner_agreement aiOverSession).1 (by decide),
   ((winner_agreement bothOverSession).2 (by decide) (by decide)).1⟩

end Tetris
